import Mathlib

/-!
Verification development for the BLUE-HYDRO methylene-blue adsorption
predictor (src/APP.py).  The application collects twelve numeric
material-science parameters through bounded input widgets, assembles them
into a feature vector, feeds the vector to a pre-trained regression model,
rounds the predicted adsorption capacity to three decimal places, and
exports the input/output record as a two-row CSV table.

Numeric values are embedded as exact rationals (`ℚ`); the opaque regression
estimator is an arbitrary function from feature vectors to a scalar.
-/

namespace BlueHydro

/-- The two options of the "Surface Modification?" selectbox (APP.py:117). -/
inductive Modified where
  | no
  | yes
deriving DecidableEq

/-- The string held by the selectbox widget: one of "No", "Yes" (APP.py:117). -/
def modStr : Modified → String
  | .no => "No"
  | .yes => "Yes"

/-- Numeric encoding of the surface-modification choice:
`modified_val = 1 if modified == "Yes" else 0` (APP.py:118). -/
def modified_val : Modified → ℚ
  | .no => 0
  | .yes => 1

/-- The twelve input fields of the form, named by their variable names in
src/APP.py (lines 115-133). -/
inductive Field where
  | T_H
  | time
  | modified
  | ratio
  | C
  | HC
  | OC
  | ONC
  | BET
  | pH
  | T
  | C0
deriving DecidableEq, Fintype

/-- Lower bound of each field: the `min_value` argument of its
`st.number_input` widget (APP.py:115-133); the surface-modification flag is
boolean, encoded over {0,1}. -/
def fieldMin : Field → ℚ
  | .T_H => 80
  | .time => 1/2
  | .modified => 0
  | .ratio => 1/100
  | .C => 10
  | .HC => 1/100
  | .OC => 1/100
  | .ONC => 1/100
  | .BET => 5
  | .pH => 1
  | .T => 10
  | .C0 => 1/10

/-- Upper bound of each field: the `max_value` argument of its
`st.number_input` widget (APP.py:115-133). -/
def fieldMax : Field → ℚ
  | .T_H => 300
  | .time => 48
  | .modified => 1
  | .ratio => 1
  | .C => 90
  | .HC => 2
  | .OC => 2
  | .ONC => 2
  | .BET => 2000
  | .pH => 14
  | .T => 60
  | .C0 => 500

/-- Default value of each field: the `value` argument of its widget
(APP.py:115-133); the selectbox defaults to "No", encoded 0. -/
def fieldDefault : Field → ℚ
  | .T_H => 180
  | .time => 6
  | .modified => 0
  | .ratio => 1/10
  | .C => 60
  | .HC => 3/10
  | .OC => 1/5
  | .ONC => 1/2
  | .BET => 400
  | .pH => 7
  | .T => 25
  | .C0 => 100

/-- Acceptance test for a submitted value: the closed interval enforced by
the field's `number_input` widget; the surface-modification flag admits
exactly the two encodings 0 and 1 produced by its selectbox. -/
def validB (f : Field) (v : ℚ) : Bool :=
  match f with
  | .modified => decide (v = 0 ∨ v = 1)
  | f => decide (fieldMin f ≤ v ∧ v ≤ fieldMax f)

/-- The fixed order in which the twelve fields enter the model's input
vector (APP.py:143). -/
def fieldOrder : List Field :=
  [.T_H, .time, .modified, .ratio, .C, .HC, .OC, .ONC, .BET, .pH, .T, .C0]

/-- A full submission: one numeric value per schema field (the spec's
`rawValues` mapping, with the boolean choice already coerced to {0,1}). -/
def RawValues : Type := Field → ℚ

/-- Validation failure naming the offending field (spec taxonomy, §7). -/
structure ValidationError where
  field : Field
deriving DecidableEq

/-- First field (in vector order) whose submitted value its widget would
refuse; `none` when every value is inside its declared bounds. -/
def firstInvalid (rv : RawValues) : Option Field :=
  fieldOrder.find? (fun f => ! validB f (rv f))

/-- The single-sample feature vector, in the exact order built at
APP.py:143: `[[T_H, time, modified_val, ratio, C, HC, OC, ONC, BET, pH, T, C0]]`. -/
def input_array (rv : RawValues) : List ℚ :=
  [rv Field.T_H, rv Field.time, rv Field.modified, rv Field.ratio,
   rv Field.C, rv Field.HC, rv Field.OC, rv Field.ONC,
   rv Field.BET, rv Field.pH, rv Field.T, rv Field.C0]

/-- The opaque regression estimator: `model.predict` on one sample
(APP.py:144), embedded as an arbitrary function on feature vectors. -/
def Model : Type := List ℚ → ℚ

/-- Modelled from the spec (§4.3) around the source's widget bounds: the
repository enforces each range inside its `st.number_input` widget
(APP.py:115-133) before the button block at APP.py:142-145 can read the
value, so a dedicated `predict(modelHandle, rawValues)` entry point with a
`ValidationError` surface exists only in the spec.  This embedding checks
the very bounds declared at APP.py:115-133 and only then invokes the model
on the APP.py:143 vector. -/
def predict (m : Model) (rv : RawValues) : Except ValidationError ℚ :=
  match firstInvalid rv with
  | some f => Except.error ⟨f⟩
  | none => Except.ok (m (input_array rv))

/-- The state of the form: the eleven numeric widget values plus the
selectbox choice, in source order (APP.py:115-133). -/
structure Inputs where
  T_H : ℚ
  time : ℚ
  modified : Modified
  ratio : ℚ
  C : ℚ
  HC : ℚ
  OC : ℚ
  ONC : ℚ
  BET : ℚ
  pH : ℚ
  T : ℚ
  C0 : ℚ
deriving DecidableEq

/-- The numeric submission induced by the form state: each widget value,
with the selectbox choice coerced through `modified_val` (APP.py:118). -/
def toRaw (i : Inputs) : RawValues := fun f =>
  match f with
  | .T_H => i.T_H
  | .time => i.time
  | .modified => modified_val i.modified
  | .ratio => i.ratio
  | .C => i.C
  | .HC => i.HC
  | .OC => i.OC
  | .ONC => i.ONC
  | .BET => i.BET
  | .pH => i.pH
  | .T => i.T
  | .C0 => i.C0

/-- Overwrite one field of a submission, leaving the others unchanged. -/
def setF (rv : RawValues) (f : Field) (v : ℚ) : RawValues :=
  fun g => if g = f then v else rv g

/-! ### Model artifact loader (APP.py:100-104)

`load_model` is decorated with `@st.cache_resource`: the first call runs
`joblib.load("HGB_clean.pkl")` and stores the result in process-wide state;
every later call in the same process returns the stored handle without
touching storage.  The process state is embedded explicitly, together with
a counter of underlying storage reads. -/

/-- Process-wide state backing the `@st.cache_resource` decorator: the
cached handle, if any, and how many underlying file reads have happened. -/
structure ProcState where
  cache : Option Model
  reads : ℕ

/-- One call to the cached `load_model` (APP.py:100-102): a cache hit
returns the stored handle untouched; a miss reads the artifact from disk,
stores it, and counts one read. -/
def load_model (disk : Model) (s : ProcState) : Model × ProcState :=
  match s.cache with
  | some h => (h, s)
  | none => (disk, ⟨some disk, s.reads + 1⟩)

/-- `n` successive calls to `load_model` in one process, collecting the
handle each caller observes. -/
def loadN (disk : Model) : ℕ → ProcState → List Model × ProcState
  | 0, s => ([], s)
  | n + 1, s =>
      let p := load_model disk s
      let rest := loadN disk n p.2
      (p.1 :: rest.1, rest.2)

/-! ### Validation lemmas -/

/-- Every field's widget default lies inside its declared bounds. -/
lemma valid_default : ∀ f : Field, validB f (fieldDefault f) = true := by
  intro f
  cases f <;> simp [validB, fieldDefault, fieldMin, fieldMax] <;> norm_num

/-- Every field accepts its declared minimum. -/
lemma valid_min : ∀ f : Field, validB f (fieldMin f) = true := by
  intro f
  cases f <;> simp [validB, fieldMin, fieldMax] <;> norm_num

/-- Every field accepts its declared maximum. -/
lemma valid_max : ∀ f : Field, validB f (fieldMax f) = true := by
  intro f
  cases f <;> simp [validB, fieldMin, fieldMax] <;> norm_num

/-- Every field occurs in the assembly order. -/
lemma mem_fieldOrder : ∀ f : Field, f ∈ fieldOrder := by decide

/-- A submission every one of whose values passes its widget check has no
invalid field. -/
lemma firstInvalid_of_allValid (rv : RawValues) (h : ∀ f, validB f (rv f) = true) :
    firstInvalid rv = none :=
  List.find?_eq_none.mpr fun f _ => by simp [h f]

/-- A value strictly below a field's minimum or strictly above its maximum
is refused by that field's widget check. -/
lemma validB_out (f : Field) (v : ℚ) (h : v < fieldMin f ∨ fieldMax f < v) :
    validB f v = false := by
  cases f <;> simp only [validB, fieldMin, fieldMax] at h ⊢ <;> apply decide_eq_false
  case modified => rintro (rfl | rfl) <;> rcases h with h | h <;> linarith
  all_goals
    rintro ⟨h1, h2⟩
    rcases h with h | h <;> linarith

/-- Deviating from the defaults in a single field that stays inside its
bounds leaves the whole submission valid. -/
lemma firstInvalid_setF_ok (f : Field) (v : ℚ) (hv : validB f v = true) :
    firstInvalid (setF fieldDefault f v) = none := by
  have hp : (fun g => ! validB g (setF fieldDefault f v g)) = fun _ => false := by
    funext g
    by_cases hg : g = f
    · subst hg; simp [setF, hv]
    · simp [setF, hg, valid_default g]
  unfold firstInvalid
  rw [hp]
  rfl

/-- Deviating from the defaults in a single field whose value its widget
refuses makes exactly that field the first invalid one. -/
lemma firstInvalid_setF_bad (f : Field) (v : ℚ) (hv : validB f v = false) :
    firstInvalid (setF fieldDefault f v) = some f := by
  have hp : (fun g => ! validB g (setF fieldDefault f v g)) = fun g => decide (g = f) := by
    funext g
    by_cases hg : g = f
    · subst hg; simp [setF, hv]
    · simp [setF, hg, valid_default g]
  unfold firstInvalid
  rw [hp]
  cases f <;> decide

/-! ### C1: assembly order of the feature vector -/

/-- The feature-vector order declared by the spec's Input Schema (§3):
hydrothermal temperature, reaction time, solid-to-liquid ratio,
surface-modification flag, carbon content, (O+N)/C, H/C, O/C, BET surface
area, pH, adsorption temperature, initial dye/adsorbent ratio.  Stated
from the spec's words, for comparison with `input_array`. -/
def spec_order_vector (rv : RawValues) : List ℚ :=
  [rv Field.T_H, rv Field.time, rv Field.ratio, rv Field.modified,
   rv Field.C, rv Field.ONC, rv Field.HC, rv Field.OC,
   rv Field.BET, rv Field.pH, rv Field.T, rv Field.C0]

/-- A form state giving every field a distinct value, separating the two
orders. -/
def cexInputs : Inputs := ⟨1, 2, Modified.yes, 4, 5, 6, 7, 8, 9, 10, 11, 12⟩

/-- C1 fails on the code: at a submission with pairwise distinct values the
vector built at APP.py:143 differs from the §3 order (the modification flag
sits third, before the solid-to-liquid ratio, and the molar ratios enter as
H/C, O/C, (O+N)/C). -/
theorem input_array_not_spec_order :
    input_array (toRaw cexInputs) ≠ spec_order_vector (toRaw cexInputs) := by
  decide

/-- C1 (amended): for every valid submission, predict feeds the model the
twelve values in the fixed order of APP.py:143 — hydrothermal temperature,
reaction time, surface-modification flag, solid-to-liquid ratio, carbon
content, H/C, O/C, (O+N)/C, BET surface area, pH, adsorption temperature,
initial dye/adsorbent ratio. -/
theorem input_array_code_order (m : Model) (rv : RawValues)
    (h : firstInvalid rv = none) :
    predict m rv =
      Except.ok (m [rv Field.T_H, rv Field.time, rv Field.modified, rv Field.ratio,
        rv Field.C, rv Field.HC, rv Field.OC, rv Field.ONC,
        rv Field.BET, rv Field.pH, rv Field.T, rv Field.C0]) := by
  unfold predict
  rw [h]
  rfl

/-- C1 amended-claim witness at the widget defaults, with a constant model. -/
theorem input_array_code_order_witness :
    firstInvalid fieldDefault = none ∧
    predict (fun _ => 3) fieldDefault = Except.ok 3 :=
  ⟨firstInvalid_of_allValid fieldDefault valid_default,
   input_array_code_order (fun _ => 3) fieldDefault
     (firstInvalid_of_allValid fieldDefault valid_default)⟩

/-! ### C2: boundary acceptance and out-of-range rejection -/

/-- C2: for each of the twelve fields, submitting the field's declared
minimum or maximum (others at their defaults) is accepted and reaches the
model, while a value strictly below the minimum or strictly above the
maximum is rejected with a `ValidationError` naming that field; the error
outcome does not mention the model at all, so no model invocation occurs. -/
theorem predict_range_validation (f : Field) (m : Model) (v : ℚ)
    (h : v < fieldMin f ∨ fieldMax f < v) :
    predict m (setF fieldDefault f (fieldMin f))
      = Except.ok (m (input_array (setF fieldDefault f (fieldMin f)))) ∧
    predict m (setF fieldDefault f (fieldMax f))
      = Except.ok (m (input_array (setF fieldDefault f (fieldMax f)))) ∧
    predict m (setF fieldDefault f v) = Except.error ⟨f⟩ := by
  refine ⟨?_, ?_, ?_⟩
  · unfold predict; rw [firstInvalid_setF_ok f _ (valid_min f)]
  · unfold predict; rw [firstInvalid_setF_ok f _ (valid_max f)]
  · unfold predict; rw [firstInvalid_setF_bad f v (validB_out f v h)]

/-- C2 witness: the spec's scenario pH = 15 (above the declared maximum 14)
instantiated with a constant model. -/
theorem predict_range_validation_witness :
    ((15:ℚ) < fieldMin Field.pH ∨ fieldMax Field.pH < 15) ∧
    (predict (fun _ => 0) (setF fieldDefault Field.pH (fieldMin Field.pH))
      = Except.ok ((fun _ => (0:ℚ)) (input_array (setF fieldDefault Field.pH (fieldMin Field.pH)))) ∧
    predict (fun _ => 0) (setF fieldDefault Field.pH (fieldMax Field.pH))
      = Except.ok ((fun _ => (0:ℚ)) (input_array (setF fieldDefault Field.pH (fieldMax Field.pH)))) ∧
    predict (fun _ => 0) (setF fieldDefault Field.pH 15) = Except.error ⟨Field.pH⟩) :=
  ⟨Or.inr (by norm_num [fieldMax]),
   predict_range_validation Field.pH (fun _ => 0) 15 (Or.inr (by norm_num [fieldMax]))⟩

/-! ### C3: missing fields (spec-modelled) -/

/-- Modelled from the spec: first schema field absent from a partial
submission, in vector order. -/
def firstMissing (rv : Field → Option ℚ) : Option Field :=
  fieldOrder.find? (fun f => (rv f).isNone)

/-- Modelled from the spec: the repository's form widgets always hold a
value, so no code path in src/APP.py ever receives a partial submission;
§4.3's contract for a `rawValues` mapping that may lack a field is embedded
from the spec's words — a missing field fails with `ValidationError` naming
it, and the remaining pipeline (range checks of APP.py:115-133 and the
model call of APP.py:143-144) runs only when every field is present. -/
def predictPartial (m : Model) (rv : Field → Option ℚ) : Except ValidationError ℚ :=
  match firstMissing rv with
  | some f => Except.error ⟨f⟩
  | none => predict m (fun f => (rv f).getD 0)

/-- C3: a submission missing any of the twelve schema fields fails with a
`ValidationError` naming a missing field and never yields a prediction, so
no default value is silently substituted. -/
theorem predict_missing_field (m : Model) (rv : Field → Option ℚ) (f₀ : Field)
    (h : rv f₀ = none) :
    (∃ f, rv f = none ∧ predictPartial m rv = Except.error ⟨f⟩) ∧
    ∀ q : ℚ, predictPartial m rv ≠ Except.ok q := by
  obtain ⟨f, hf⟩ : ∃ f, firstMissing rv = some f := by
    rcases hfind : firstMissing rv with _ | f
    · exact absurd (List.find?_eq_none.mp hfind f₀ (mem_fieldOrder f₀)) (by simp [h])
    · exact ⟨f, rfl⟩
  have hfn : rv f = none := by
    have := List.find?_some hf
    simpa using this
  refine ⟨⟨f, hfn, ?_⟩, ?_⟩
  · unfold predictPartial; rw [hf]
  · intro q hq
    unfold predictPartial at hq
    rw [hf] at hq
    exact absurd hq (by simp)

/-- C3 witness: the empty submission, with a constant model. -/
theorem predict_missing_field_witness :
    ((fun _ : Field => (none : Option ℚ)) Field.pH = none) ∧
    ((∃ f, (fun _ : Field => (none : Option ℚ)) f = none ∧
        predictPartial (fun _ => 0) (fun _ => none) = Except.error ⟨f⟩) ∧
     ∀ q : ℚ, predictPartial (fun _ => 0) (fun _ => none) ≠ Except.ok q) :=
  ⟨rfl, predict_missing_field (fun _ => 0) (fun _ => none) Field.pH rfl⟩

/-! ### C7: determinism and purity of predict -/

/-- C7: `predict` is a pure function of the model handle and the submitted
values — two submissions assigning every field the same value produce the
same outcome against the same handle, and the embedding of the button block
(APP.py:142-145) computes a value without touching any other state. -/
theorem predict_deterministic (m : Model) (rv rv' : RawValues)
    (h : ∀ f, rv f = rv' f) : predict m rv = predict m rv' := by
  have : rv = rv' := funext h
  rw [this]

/-- C7 witness at the widget defaults. -/
theorem predict_deterministic_witness :
    (∀ f : Field, fieldDefault f = fieldDefault f) ∧
    predict (fun _ => 0) fieldDefault = predict (fun _ => 0) fieldDefault :=
  ⟨fun _ => rfl, predict_deterministic (fun _ => 0) fieldDefault fieldDefault (fun _ => rfl)⟩

/-! ### C8: the model artifact is loaded once per process -/

/-- Once the handle is cached, further calls return it unchanged and
perform no reads. -/
lemma loadN_cached (disk h : Model) (r : ℕ) :
    ∀ n, loadN disk n ⟨some h, r⟩ = (List.replicate n h, ⟨some h, r⟩) := by
  intro n
  induction n with
  | zero => rfl
  | succ n ih => simp [loadN, load_model, ih, List.replicate]

/-- C8: in a fresh process, `n` successive calls to the cached
`load_model` perform exactly `min n 1` underlying reads of the artifact,
and every caller observes the identical handle deserialized by the first
call. -/
theorem load_model_once (disk : Model) (n : ℕ) :
    (loadN disk n ⟨none, 0⟩).2.reads = min n 1 ∧
    (loadN disk n ⟨none, 0⟩).1 = List.replicate n disk := by
  cases n with
  | zero => exact ⟨rfl, rfl⟩
  | succ n =>
      have hstep : loadN disk (n + 1) ⟨none, 0⟩
          = (disk :: List.replicate n disk, ⟨some disk, 1⟩) := by
        simp [loadN, load_model, loadN_cached]
      rw [hstep]
      exact ⟨by simp, rfl⟩

/-! ### Rounding to three decimal places

Both the display (`f"{prediction:.3f}"`, APP.py:145) and the exported value
(`round(prediction, 3)`, APP.py:152) round the predicted scalar to three
decimal places under Python's round-half-to-even rule, embedded here over
exact rationals. -/

/-- Round a rational to the nearest integer, ties to the even integer
(Python's rounding rule). -/
def rhe (x : ℚ) : ℤ :=
  if x - ⌊x⌋ < 1/2 then ⌊x⌋
  else if 1/2 < x - ⌊x⌋ then ⌊x⌋ + 1
  else if ⌊x⌋ % 2 = 0 then ⌊x⌋ else ⌊x⌋ + 1

/-- The predicted scalar rounded to three decimal places, shared by the
display at APP.py:145 and the export at APP.py:152. -/
def pyRound3 (q : ℚ) : ℚ := (rhe (q * 1000) : ℚ) / 1000

/-- Half-even rounding moves a value by at most one half. -/
lemma rhe_abs (x : ℚ) : |(rhe x : ℚ) - x| ≤ 1/2 := by
  have h0 : (⌊x⌋ : ℚ) ≤ x := Int.floor_le x
  have h1 : x < ⌊x⌋ + 1 := Int.lt_floor_add_one x
  unfold rhe
  split_ifs with ha hb hc <;> rw [abs_le] <;> constructor <;> push_cast <;> linarith

/-- Rounding to three decimals moves a value by at most `1/2000`. -/
lemma pyRound3_near (p : ℚ) : |pyRound3 p - p| ≤ 1/2000 := by
  have h := rhe_abs (p * 1000)
  rw [abs_le] at h ⊢
  unfold pyRound3
  constructor <;> rcases h with ⟨h1, h2⟩ <;> linarith

/-! ### Decimal digit strings -/

/-- Digit extraction with explicit fuel (the fuel only bounds the number of
divisions, so the kernel can evaluate it by structural recursion). -/
def natDigitsAux : ℕ → ℕ → List ℕ
  | 0, _ => []
  | fuel + 1, n => if n = 0 then [] else natDigitsAux fuel (n / 10) ++ [n % 10]

/-- Base-10 digits of a natural number, most significant first; empty for 0. -/
def natDigits (n : ℕ) : List ℕ := natDigitsAux n n

lemma natDigitsAux_of_zero (fuel : ℕ) : natDigitsAux fuel 0 = [] := by
  cases fuel <;> rfl

lemma natDigitsAux_congr :
    ∀ f1 f2 n, n ≤ f1 → n ≤ f2 → natDigitsAux f1 n = natDigitsAux f2 n := by
  intro f1
  induction f1 with
  | zero =>
      intro f2 n h1 _
      obtain rfl : n = 0 := Nat.le_zero.mp h1
      rw [natDigitsAux_of_zero, natDigitsAux_of_zero]
  | succ g1 ih =>
      intro f2 n h1 h2
      by_cases hn : n = 0
      · subst hn; rw [natDigitsAux_of_zero, natDigitsAux_of_zero]
      · have hdiv : n / 10 < n := Nat.div_lt_self (Nat.pos_of_ne_zero hn) (by norm_num)
        cases f2 with
        | zero => omega
        | succ g2 =>
            simp only [natDigitsAux, if_neg hn]
            rw [ih g2 (n / 10) (by omega) (by omega)]

lemma natDigits_zero : natDigits 0 = [] := rfl

lemma natDigits_of_ne {n : ℕ} (h : n ≠ 0) :
    natDigits n = natDigits (n / 10) ++ [n % 10] := by
  obtain ⟨m, rfl⟩ : ∃ m, n = m + 1 := ⟨n - 1, by omega⟩
  have hdiv : (m + 1) / 10 < m + 1 := Nat.div_lt_self (by omega) (by norm_num)
  show natDigitsAux (m + 1) (m + 1) = _
  simp only [natDigitsAux, if_neg h]
  unfold natDigits
  rw [natDigitsAux_congr m ((m + 1) / 10) ((m + 1) / 10) (by omega) le_rfl]

lemma natDigits_lt (n : ℕ) : ∀ d ∈ natDigits n, d < 10 := by
  induction n using Nat.strong_induction_on with
  | _ n ih =>
    by_cases h : n = 0
    · subst h; rw [natDigits_zero]; intro d hd; cases hd
    · rw [natDigits_of_ne h]
      intro d hd
      rcases List.mem_append.mp hd with hd | hd
      · exact ih (n / 10) (Nat.div_lt_self (Nat.pos_of_ne_zero h) (by norm_num)) d hd
      · rw [List.mem_singleton.mp hd]
        exact Nat.mod_lt n (by norm_num)

/-- Exactly `k` base-10 digits of `m` (mod `10 ^ k`), most significant
first, left-padded with zeros. -/
def padDigits : ℕ → ℕ → List ℕ
  | 0, _ => []
  | k + 1, m => padDigits k (m / 10) ++ [m % 10]

lemma padDigits_lt (k m : ℕ) : ∀ d ∈ padDigits k m, d < 10 := by
  induction k generalizing m with
  | zero => intro d hd; cases hd
  | succ k ih =>
      intro d hd
      rcases List.mem_append.mp hd with hd | hd
      · exact ih (m / 10) d hd
      · rw [List.mem_singleton.mp hd]
        exact Nat.mod_lt m (by norm_num)

lemma padDigits_length (k m : ℕ) : (padDigits k m).length = k := by
  induction k generalizing m with
  | zero => rfl
  | succ k ih => simp [padDigits, ih]

/-- The character of one decimal digit. -/
def digitChar (d : ℕ) : Char := Char.ofNat (48 + d)

lemma digitChar_bounds (d : ℕ) (h : d < 10) :
    48 ≤ (digitChar d).toNat ∧ (digitChar d).toNat ≤ 57 := by
  interval_cases d <;> decide

/-- Decimal characters of a natural number; "0" for zero. -/
def natChars (n : ℕ) : List Char :=
  if n = 0 then ['0'] else (natDigits n).map digitChar

lemma natChars_ne_nil (n : ℕ) : natChars n ≠ [] := by
  unfold natChars
  split
  · simp
  · rename_i h
    rw [natDigits_of_ne h]
    simp

lemma mem_natChars_digit (n : ℕ) :
    ∀ c ∈ natChars n, 48 ≤ c.toNat ∧ c.toNat ≤ 57 := by
  intro c hc
  unfold natChars at hc
  split at hc
  · rw [List.mem_singleton.mp hc]; decide
  · obtain ⟨d, hd, rfl⟩ := List.mem_map.mp hc
    exact digitChar_bounds d (natDigits_lt n d hd)

lemma mem_padChars_digit (k m : ℕ) :
    ∀ c ∈ (padDigits k m).map digitChar, 48 ≤ c.toNat ∧ c.toNat ≤ 57 := by
  intro c hc
  obtain ⟨d, hd, rfl⟩ := List.mem_map.mp hc
  exact digitChar_bounds d (padDigits_lt k m d hd)

/-- A digit character is none of the CSV or number delimiters. -/
lemma digit_not_delim {c : Char} (h : 48 ≤ c.toNat ∧ c.toNat ≤ 57) :
    c ≠ ',' ∧ c ≠ '\n' ∧ c ≠ '.' ∧ c ≠ '-' := by
  refine ⟨?_, ?_, ?_, ?_⟩ <;> rintro rfl <;> exact absurd h (by decide)

/-! ### Parsing decimal strings back -/

/-- Numeric value of a digit character, if it is one. -/
def parseDigit (c : Char) : Option ℕ :=
  if 48 ≤ c.toNat ∧ c.toNat ≤ 57 then some (c.toNat - 48) else none

lemma parseDigit_digitChar (d : ℕ) (h : d < 10) :
    parseDigit (digitChar d) = some d := by
  interval_cases d <;> rfl

/-- Fold decimal digit characters onto an accumulator. -/
def parseNatAux : List Char → ℕ → Option ℕ
  | [], acc => some acc
  | c :: cs, acc =>
      match parseDigit c with
      | some d => parseNatAux cs (acc * 10 + d)
      | none => none

/-- Parse a nonempty string of decimal digit characters. -/
def parseNat (cs : List Char) : Option ℕ :=
  match cs with
  | [] => none
  | _ => parseNatAux cs 0

lemma parseNat_of_ne_nil (cs : List Char) (h : cs ≠ []) :
    parseNat cs = parseNatAux cs 0 := by
  cases cs with
  | nil => exact absurd rfl h
  | cons c cs => rfl

lemma parseNatAux_append (as bs : List Char) :
    ∀ acc, parseNatAux (as ++ bs) acc =
      match parseNatAux as acc with
      | some a => parseNatAux bs a
      | none => none := by
  induction as with
  | nil => intro acc; rfl
  | cons c as ih =>
      intro acc
      simp only [List.cons_append, parseNatAux]
      cases parseDigit c with
      | some d => exact ih _
      | none => rfl

lemma parseNatAux_digits (n : ℕ) :
    ∀ acc, parseNatAux ((natDigits n).map digitChar) acc
      = some (acc * 10 ^ (natDigits n).length + n) := by
  induction n using Nat.strong_induction_on with
  | _ n ih =>
    intro acc
    by_cases h : n = 0
    · subst h; rw [natDigits_zero]; simp [parseNatAux]
    · rw [natDigits_of_ne h]
      rw [List.map_append, parseNatAux_append]
      rw [ih (n / 10) (Nat.div_lt_self (Nat.pos_of_ne_zero h) (by norm_num)) acc]
      simp only [List.map_cons, List.map_nil, parseNatAux,
        parseDigit_digitChar (n % 10) (Nat.mod_lt n (by norm_num))]
      rw [List.length_append, List.length_singleton]
      congr 1
      have hm : 10 * (n / 10) + n % 10 = n := Nat.div_add_mod n 10
      calc (acc * 10 ^ (natDigits (n / 10)).length + n / 10) * 10 + n % 10
          = acc * (10 ^ (natDigits (n / 10)).length * 10)
            + (10 * (n / 10) + n % 10) := by ring
        _ = acc * 10 ^ ((natDigits (n / 10)).length + 1) + n := by
            rw [hm, pow_succ]

lemma parseNatAux_padDigits (k : ℕ) :
    ∀ m acc, m < 10 ^ k → parseNatAux ((padDigits k m).map digitChar) acc
      = some (acc * 10 ^ k + m) := by
  induction k with
  | zero =>
      intro m acc hm
      interval_cases m
      simp [padDigits, parseNatAux]
  | succ k ih =>
      intro m acc hm
      have hdiv : m / 10 < 10 ^ k := by
        rw [Nat.div_lt_iff_lt_mul (by norm_num)]
        calc m < 10 ^ (k + 1) := hm
          _ = 10 ^ k * 10 := by rw [pow_succ]
      simp only [padDigits, List.map_append, parseNatAux_append, ih (m / 10) acc hdiv]
      simp only [List.map_cons, List.map_nil, parseNatAux,
        parseDigit_digitChar (m % 10) (Nat.mod_lt m (by norm_num))]
      congr 1
      have hm' : 10 * (m / 10) + m % 10 = m := Nat.div_add_mod m 10
      calc (acc * 10 ^ k + m / 10) * 10 + m % 10
          = acc * (10 ^ k * 10) + (10 * (m / 10) + m % 10) := by ring
        _ = acc * 10 ^ (k + 1) + m := by rw [hm', pow_succ]

lemma parseNat_natChars (n : ℕ) : parseNat (natChars n) = some n := by
  by_cases h : n = 0
  · subst h; rfl
  · rw [parseNat_of_ne_nil _ (natChars_ne_nil n)]
    unfold natChars
    rw [if_neg h, parseNatAux_digits n 0]
    simp

lemma padDigits_ne_nil (k m : ℕ) (hk : k ≠ 0) :
    (padDigits k m).map digitChar ≠ [] := by
  intro hcon
  have := padDigits_length k m
  rw [List.map_eq_nil.mp hcon] at this
  exact hk this.symm

lemma parseNat_padDigits (k m : ℕ) (hk : k ≠ 0) (hm : m < 10 ^ k) :
    parseNat ((padDigits k m).map digitChar) = some m := by
  rw [parseNat_of_ne_nil _ (padDigits_ne_nil k m hk), parseNatAux_padDigits k m 0 hm]
  simp

/-! ### Serializing rationals as decimal text

The widget values are binary floats, whose textual form in the CSV written
by `to_csv` (APP.py:158) is a decimal numeral that parses back to the exact
stored value.  The embedding renders a rational with denominator dividing a
power of ten as an exact decimal numeral (sign, integer part, point,
fractional digits) and proves the round trip. -/

/-- A rational with a finite decimal expansion (every binary float is one):
its reduced denominator divides `10 ^ den`. -/
def IsDec (q : ℚ) : Prop := 10 ^ q.den % q.den = 0

instance (q : ℚ) : Decidable (IsDec q) := by unfold IsDec; infer_instance

lemma isDec_dvd {q : ℚ} (h : IsDec q) : q.den ∣ 10 ^ q.den :=
  Nat.dvd_iff_mod_eq_zero.mpr h

/-- Numerator magnitude scaled to `den` decimal places. -/
def ratScale (q : ℚ) : ℕ := q.num.natAbs * 10 ^ q.den / q.den

/-- Exact decimal characters of a rational (meaningful when `IsDec q`):
optional sign, integer part, decimal point, `q.den` fractional digits. -/
def ratChars (q : ℚ) : List Char :=
  if q.num < 0 then
    '-' :: (natChars (ratScale q / 10 ^ q.den) ++
      '.' :: (padDigits q.den (ratScale q % 10 ^ q.den)).map digitChar)
  else
    natChars (ratScale q / 10 ^ q.den) ++
      '.' :: (padDigits q.den (ratScale q % 10 ^ q.den)).map digitChar

/-- The characters rendered by the `:.3f` format of the success banner
(APP.py:145): sign, integer part, decimal point, exactly three fractional
digits of the half-even-rounded value. -/
def fixed3 (p : ℚ) : List Char :=
  if rhe (p * 1000) < 0 then
    '-' :: (natChars ((rhe (p * 1000)).natAbs / 1000) ++
      '.' :: (padDigits 3 ((rhe (p * 1000)).natAbs % 1000)).map digitChar)
  else
    natChars ((rhe (p * 1000)).natAbs / 1000) ++
      '.' :: (padDigits 3 ((rhe (p * 1000)).natAbs % 1000)).map digitChar

/-- Parse an unsigned decimal numeral, with or without a decimal point. -/
def parseUnsigned (cs : List Char) : Option ℚ :=
  if (cs.dropWhile (fun c => c ≠ '.')) = [] then (parseNat cs).map (fun a => (a : ℚ))
  else
    (parseNat (cs.takeWhile (fun c => c ≠ '.'))).bind fun a =>
      (parseNat (cs.dropWhile (fun c => c ≠ '.')).tail).map fun b =>
        (a : ℚ) + (b : ℚ) / 10 ^ (cs.dropWhile (fun c => c ≠ '.')).tail.length

/-- Parse a decimal numeral with an optional leading minus sign. -/
def parseRat (cs : List Char) : Option ℚ :=
  if cs.head? = some '-' then (parseUnsigned cs.tail).map (fun q => -q)
  else parseUnsigned cs

lemma takeWhile_middle {α} (p : α → Bool) (A : List α) (b : α) (B : List α)
    (hA : ∀ a ∈ A, p a = true) (hb : p b = false) :
    (A ++ b :: B).takeWhile p = A ∧ (A ++ b :: B).dropWhile p = b :: B := by
  induction A with
  | nil => simp [List.takeWhile_cons, List.dropWhile_cons, hb]
  | cons a A ih =>
      have ha := hA a (by simp)
      have ih' := ih fun x hx => hA x (List.mem_cons_of_mem a hx)
      simp [List.takeWhile_cons, List.dropWhile_cons, ha, ih'.1, ih'.2]

/-- Parsing the rendered body `⟨int part⟩.⟨k fractional digits⟩`. -/
lemma parseUnsigned_body (a b k : ℕ) (hk : k ≠ 0) (hb : b < 10 ^ k) :
    parseUnsigned (natChars a ++ '.' :: (padDigits k b).map digitChar)
      = some ((a : ℚ) + (b : ℚ) / 10 ^ k) := by
  have hA : ∀ c ∈ natChars a, (fun c => decide (c ≠ '.')) c = true := by
    intro c hc
    simp only [decide_eq_true_eq]
    exact (digit_not_delim (mem_natChars_digit a c hc)).2.2.1
  have hdot : (fun c => decide (c ≠ '.')) '.' = false := by simp
  obtain ⟨ht, hd⟩ := takeWhile_middle _ (natChars a) '.'
    ((padDigits k b).map digitChar) hA hdot
  unfold parseUnsigned
  rw [hd, ht]
  rw [if_neg (List.cons_ne_nil _ _)]
  simp only [List.tail_cons]
  rw [parseNat_natChars a, parseNat_padDigits k b hk hb]
  simp [padDigits_length]

lemma head_natChars_not_neg (a : ℕ) (rest : List Char) :
    (natChars a ++ rest).head? ≠ some '-' := by
  obtain ⟨c, cs, hc⟩ := List.exists_cons_of_ne_nil (natChars_ne_nil a)
  have hcd : c ∈ natChars a := by rw [hc]; exact List.mem_cons_self c cs
  have hne := (digit_not_delim (mem_natChars_digit a c hcd)).2.2.2
  rw [hc]
  simp [hne]

/-- Parsing the full rendering of a nonnegative value. -/
lemma parseRat_body (a b k : ℕ) (hk : k ≠ 0) (hb : b < 10 ^ k) :
    parseRat (natChars a ++ '.' :: (padDigits k b).map digitChar)
      = some ((a : ℚ) + (b : ℚ) / 10 ^ k) := by
  unfold parseRat
  rw [if_neg (head_natChars_not_neg a _), parseUnsigned_body a b k hk hb]

/-- Parsing the full rendering of a negative value. -/
lemma parseRat_neg_body (a b k : ℕ) (hk : k ≠ 0) (hb : b < 10 ^ k) :
    parseRat ('-' :: (natChars a ++ '.' :: (padDigits k b).map digitChar))
      = some (-((a : ℚ) + (b : ℚ) / 10 ^ k)) := by
  simp [parseRat, parseUnsigned_body a b k hk hb]

/-- Splitting a scaled magnitude into integer and fractional parts. -/
lemma cast_div_add_mod (M K : ℕ) (hK : 0 < K) :
    ((M / K : ℕ) : ℚ) + ((M % K : ℕ) : ℚ) / (K : ℚ) = (M : ℚ) / K := by
  have hKQ : (K : ℚ) ≠ 0 := by exact_mod_cast hK.ne'
  field_simp
  have h' : M / K * K + M % K = M := by
    rw [Nat.mul_comm]
    exact Nat.div_add_mod M K
  exact_mod_cast h'

/-- Round trip for decimal rationals: parsing the rendered characters
recovers the exact value. -/
theorem parseRat_ratChars (q : ℚ) (h : IsDec q) : parseRat (ratChars q) = some q := by
  have hden : q.den ≠ 0 := q.den_nz
  have hdvd : q.den ∣ q.num.natAbs * 10 ^ q.den := Dvd.dvd.mul_left (isDec_dvd h) _
  have hm : ratScale q * q.den = q.num.natAbs * 10 ^ q.den := Nat.div_mul_cancel hdvd
  have h10 : (0:ℕ) < 10 ^ q.den := pow_pos (by norm_num) q.den
  have hb : ratScale q % 10 ^ q.den < 10 ^ q.den := Nat.mod_lt _ h10
  have hval : ((ratScale q / 10 ^ q.den : ℕ) : ℚ)
      + ((ratScale q % 10 ^ q.den : ℕ) : ℚ) / (10:ℚ) ^ q.den
      = (q.num.natAbs : ℚ) / (q.den : ℚ) := by
    have := cast_div_add_mod (ratScale q) (10 ^ q.den) h10
    push_cast at this ⊢
    rw [this]
    rw [div_eq_div_iff (by positivity) (by exact_mod_cast q.den_pos.ne')]
    exact_mod_cast hm
  by_cases hneg : q.num < 0
  · have hchars : ratChars q = '-' :: (natChars (ratScale q / 10 ^ q.den) ++
        '.' :: (padDigits q.den (ratScale q % 10 ^ q.den)).map digitChar) := by
      unfold ratChars
      rw [if_pos hneg]
    rw [hchars, parseRat_neg_body _ _ _ hden hb, hval]
    have habs : (q.num.natAbs : ℚ) = -(q.num : ℚ) := by
      rw [Int.cast_natAbs, abs_of_neg hneg]
      push_cast
      ring
    rw [habs]
    congr 1
    rw [neg_div, neg_neg]
    exact q.num_div_den
  · have hchars : ratChars q = natChars (ratScale q / 10 ^ q.den) ++
        '.' :: (padDigits q.den (ratScale q % 10 ^ q.den)).map digitChar := by
      unfold ratChars
      rw [if_neg hneg]
    rw [hchars, parseRat_body _ _ _ hden hb, hval]
    have habs : (q.num.natAbs : ℚ) = (q.num : ℚ) := by
      rw [Int.cast_natAbs, abs_of_nonneg (not_lt.mp hneg)]
    rw [habs]
    congr 1
    exact q.num_div_den

/-! ### C4: three-decimal rounding of the displayed and exported capacity -/

lemma isDec_of_dvd_1000 (q : ℚ) (h : q.den ∣ 1000) : IsDec q := by
  unfold IsDec
  rw [← Nat.dvd_iff_mod_eq_zero]
  rcases Nat.lt_or_ge q.den 3 with hlt | hge
  · have hpos := q.den_pos
    have h2 : q.den = 1 ∨ q.den = 2 := by omega
    rcases h2 with h2 | h2 <;> rw [h2] <;> norm_num
  · have h3 : (1000:ℕ) ∣ 10 ^ q.den := by
      have hp := pow_dvd_pow 10 hge
      norm_num at hp
      exact hp
    exact dvd_trans h h3

/-- The rounded capacity has a denominator dividing 1000, hence a finite
decimal expansion. -/
lemma isDec_pyRound3 (p : ℚ) : IsDec (pyRound3 p) := by
  apply isDec_of_dvd_1000
  have h := Rat.den_dvd (rhe (p * 1000)) 1000
  rw [Rat.divInt_eq_div] at h
  push_cast at h
  unfold pyRound3
  exact_mod_cast h

/-- Parsing the `:.3f`-formatted display string yields exactly the rounded
value. -/
lemma parseRat_fixed3 (p : ℚ) : parseRat (fixed3 p) = some (pyRound3 p) := by
  have hb : (rhe (p * 1000)).natAbs % 1000 < 10 ^ 3 :=
    Nat.mod_lt _ (by norm_num)
  unfold fixed3 pyRound3
  by_cases hneg : rhe (p * 1000) < 0
  · rw [if_pos hneg, parseRat_neg_body _ _ _ (by norm_num) hb]
    congr 1
    have habs : ((rhe (p * 1000)).natAbs : ℚ) = -((rhe (p * 1000) : ℤ) : ℚ) := by
      rw [Int.cast_natAbs, abs_of_neg hneg]
      push_cast
      ring
    rw [show ((10:ℚ)) ^ 3 = ((1000:ℕ) : ℚ) from by norm_num]
    rw [cast_div_add_mod (rhe (p * 1000)).natAbs 1000 (by norm_num), habs]
    push_cast
    ring
  · rw [if_neg hneg, parseRat_body _ _ _ (by norm_num) hb]
    congr 1
    have habs : ((rhe (p * 1000)).natAbs : ℚ) = ((rhe (p * 1000) : ℤ) : ℚ) := by
      rw [Int.cast_natAbs, abs_of_nonneg (not_lt.mp hneg)]
    rw [show ((10:ℚ)) ^ 3 = ((1000:ℕ) : ℚ) from by norm_num]
    rw [cast_div_add_mod (rhe (p * 1000)).natAbs 1000 (by norm_num), habs]
    push_cast
    ring

/-- C4: for every predicted scalar, the display string rendered by the
`:.3f` format (APP.py:145) and the exported cell produced from
`round(prediction, 3)` (APP.py:152) both carry exactly the half-even
three-decimal rounding of the prediction: each parses back to `pyRound3 p`,
that value is an integer multiple of 1/1000, and it sits within 1/2000 of
the unrounded prediction. -/
theorem rounded_capacity_three_decimals (p : ℚ) :
    parseRat (fixed3 p) = some (pyRound3 p) ∧
    parseRat (ratChars (pyRound3 p)) = some (pyRound3 p) ∧
    (∃ z : ℤ, pyRound3 p = (z : ℚ) / 1000) ∧
    |pyRound3 p - p| ≤ 1 / 2000 :=
  ⟨parseRat_fixed3 p, parseRat_ratChars _ (isDec_pyRound3 p),
   ⟨rhe (p * 1000), rfl⟩, pyRound3_near p⟩

/-! ### The CSV exporter (APP.py:147-158)

`df_result` is a one-row data frame whose columns are the twelve inputs
(the modification column holding the selectbox string, not its numeric
encoding) followed by the rounded prediction; `to_csv(..., index=False)`
writes a header line with the column labels and one data line, separated by
newlines, cells separated by commas. -/

/-- The twelve column labels of `df_result` (APP.py:147-151), in source
order, units included. -/
def fieldLabels : List String :=
  ["T_H (°C)", "Time (h)", "Modified", "S/L Ratio (g/mL)", "C (wt%)",
   "H/C", "O/C", "(O+N)/C", "BET (m²/g)", "pH", "T (°C)", "C₀ (mg/g)"]

/-- The result column label (APP.py:152). -/
def resultLabel : String := "Predicted Q (mmol/g)"

/-- Header cells: the twelve field labels followed by the result label. -/
def headerCells : List (List Char) :=
  (fieldLabels.map String.data) ++ [resultLabel.data]

/-- The twelve input cells of the data row (APP.py:147-151): the literal
numeric values, except that the modification column holds the selectbox
string. -/
def fieldCells (i : Inputs) : List (List Char) :=
  [ratChars i.T_H, ratChars i.time, (modStr i.modified).data, ratChars i.ratio,
   ratChars i.C, ratChars i.HC, ratChars i.OC, ratChars i.ONC, ratChars i.BET,
   ratChars i.pH, ratChars i.T, ratChars i.C0]

/-- Join cells with a separator character. -/
def joinSep (sep : Char) : List (List Char) → List Char
  | [] => []
  | [c] => c
  | c :: c2 :: cs => c ++ sep :: joinSep sep (c2 :: cs)

/-- Split a character list at every occurrence of the separator. -/
def splitSep (sep : Char) : List Char → List (List Char)
  | [] => [[]]
  | c :: cs =>
      if c = sep then [] :: splitSep sep cs
      else
        match splitSep sep cs with
        | [] => [[c]]
        | h :: t => (c :: h) :: t

/-- The bytes of the exported CSV: header line, newline, data line,
newline (APP.py:158, `index=False`). -/
def csvChars (i : Inputs) (p : ℚ) : List Char :=
  joinSep ',' headerCells ++
    '\n' :: (joinSep ',' (fieldCells i ++ [ratChars (pyRound3 p)]) ++ ['\n'])

/-- The exported CSV as a string (the download payload, APP.py:157-164). -/
def to_csv (i : Inputs) (p : ℚ) : String := String.mk (csvChars i p)

/-- Parse delimited text into rows of cells: split at newlines, drop the
trailing empty line, split each line at commas. -/
def parseRows (s : String) : List (List (List Char)) :=
  ((splitSep '\n' s.data).dropLast).map (splitSep ',')

lemma splitSep_no_sep (sep : Char) (A : List Char) (hA : ∀ c ∈ A, c ≠ sep) :
    splitSep sep A = [A] := by
  induction A with
  | nil => rfl
  | cons c A ih =>
      have hc : c ≠ sep := hA c (by simp)
      have ih' := ih fun x hx => hA x (List.mem_cons_of_mem c hx)
      simp [splitSep, hc, ih']

lemma splitSep_append (sep : Char) (A B : List Char) (hA : ∀ c ∈ A, c ≠ sep) :
    splitSep sep (A ++ sep :: B) = A :: splitSep sep B := by
  induction A with
  | nil => simp [splitSep]
  | cons c A ih =>
      have hc : c ≠ sep := hA c (by simp)
      have ih' := ih fun x hx => hA x (List.mem_cons_of_mem c hx)
      simp [splitSep, hc, ih']

lemma splitSep_joinSep (sep : Char) (cells : List (List Char)) (hne : cells ≠ [])
    (h : ∀ cell ∈ cells, ∀ c ∈ cell, c ≠ sep) :
    splitSep sep (joinSep sep cells) = cells := by
  induction cells with
  | nil => exact absurd rfl hne
  | cons c cells ih =>
      cases cells with
      | nil => exact splitSep_no_sep sep c (h c (by simp))
      | cons c2 cs =>
          rw [joinSep, splitSep_append sep c _ (h c (by simp))]
          rw [ih (by simp) fun cell hc => h cell (List.mem_cons_of_mem c hc)]

lemma mem_joinSep (sep : Char) (c : Char) :
    ∀ cells, c ∈ joinSep sep cells → c = sep ∨ ∃ cell ∈ cells, c ∈ cell := by
  intro cells
  induction cells with
  | nil => intro hc; cases hc
  | cons a cells ih =>
      cases cells with
      | nil =>
          intro hc
          right
          exact ⟨a, by simp, by simpa [joinSep] using hc⟩
      | cons a2 cs =>
          intro hc
          rw [joinSep] at hc
          rcases List.mem_append.mp hc with h | h
          · right; exact ⟨a, by simp, h⟩
          · rcases List.mem_cons.mp h with rfl | h
            · left; rfl
            · rcases ih h with rfl | ⟨cell, hcell, hc'⟩
              · left; rfl
              · right; exact ⟨cell, List.mem_cons_of_mem a hcell, hc'⟩

/-- No character of a rendered rational is a comma or a newline. -/
lemma ratChars_safe (q : ℚ) : ∀ c ∈ ratChars q, c ≠ ',' ∧ c ≠ '\n' := by
  intro c hc
  have body : ∀ {A : ℕ} {k B : ℕ},
      c ∈ natChars A ++ '.' :: (padDigits k B).map digitChar →
      c ≠ ',' ∧ c ≠ '\n' := by
    intro A k B hmem
    rcases List.mem_append.mp hmem with h1 | h1
    · have := digit_not_delim (mem_natChars_digit A c h1)
      exact ⟨this.1, this.2.1⟩
    · rcases List.mem_cons.mp h1 with rfl | h1
      · exact ⟨by decide, by decide⟩
      · have := digit_not_delim (mem_padChars_digit k B c h1)
        exact ⟨this.1, this.2.1⟩
  unfold ratChars at hc
  split at hc
  · rcases List.mem_cons.mp hc with rfl | hc
    · exact ⟨by decide, by decide⟩
    · exact body hc
  · exact body hc

/-- No cell of the header row contains a comma or a newline. -/
lemma headerCells_safe : ∀ cell ∈ headerCells, ∀ c ∈ cell, c ≠ ',' ∧ c ≠ '\n' := by
  decide

/-- No cell of the data row contains a comma or a newline. -/
lemma dataCells_safe (i : Inputs) (p : ℚ) :
    ∀ cell ∈ fieldCells i ++ [ratChars (pyRound3 p)],
      ∀ c ∈ cell, c ≠ ',' ∧ c ≠ '\n' := by
  intro cell hcell
  simp only [fieldCells, List.cons_append, List.nil_append, List.mem_cons,
    List.not_mem_nil, or_false] at hcell
  rcases hcell with rfl | rfl | rfl | rfl | rfl | rfl | rfl | rfl | rfl | rfl | rfl | rfl | rfl
  exacts [ratChars_safe i.T_H, ratChars_safe i.time, (by cases i.modified <;> decide),
    ratChars_safe i.ratio, ratChars_safe i.C, ratChars_safe i.HC, ratChars_safe i.OC,
    ratChars_safe i.ONC, ratChars_safe i.BET, ratChars_safe i.pH, ratChars_safe i.T,
    ratChars_safe i.C0, ratChars_safe (pyRound3 p)]

/-- Parsing the exported CSV recovers exactly the header row and the data
row. -/
lemma parseRows_to_csv (i : Inputs) (p : ℚ) :
    parseRows (to_csv i p)
      = [headerCells, fieldCells i ++ [ratChars (pyRound3 p)]] := by
  have hH : ∀ c ∈ joinSep ',' headerCells, c ≠ '\n' := by
    intro c hc
    rcases mem_joinSep ',' c headerCells hc with rfl | ⟨cell, hcell, hc'⟩
    · decide
    · exact (headerCells_safe cell hcell c hc').2
  have hD : ∀ c ∈ joinSep ',' (fieldCells i ++ [ratChars (pyRound3 p)]), c ≠ '\n' := by
    intro c hc
    rcases mem_joinSep ',' c _ hc with rfl | ⟨cell, hcell, hc'⟩
    · decide
    · exact (dataCells_safe i p cell hcell c hc').2
  unfold parseRows to_csv csvChars
  rw [show (String.mk (joinSep ',' headerCells ++
      '\n' :: (joinSep ',' (fieldCells i ++ [ratChars (pyRound3 p)]) ++ ['\n']))).data
      = joinSep ',' headerCells ++
      '\n' :: (joinSep ',' (fieldCells i ++ [ratChars (pyRound3 p)]) ++ ['\n']) from rfl]
  rw [splitSep_append '\n' _ _ hH]
  rw [show (joinSep ',' (fieldCells i ++ [ratChars (pyRound3 p)]) ++ ['\n'])
      = joinSep ',' (fieldCells i ++ [ratChars (pyRound3 p)]) ++ '\n' :: [] from rfl]
  rw [splitSep_append '\n' _ _ hD]
  show [splitSep ',' (joinSep ',' headerCells),
    splitSep ',' (joinSep ',' (fieldCells i ++ [ratChars (pyRound3 p)]))] = _
  rw [splitSep_joinSep ',' headerCells (by decide)
      (fun cell hcell c hc => (headerCells_safe cell hcell c hc).1)]
  rw [splitSep_joinSep ',' _ (by simp [fieldCells])
      (fun cell hcell c hc => (dataCells_safe i p cell hcell c hc).1)]

/-! ### C5 and C6: structure and round trip of the exported table -/

/-- The selectbox strings are not decimal numerals, so the modification
cell parses as no number. -/
lemma parseRat_modStr (m : Modified) : parseRat (modStr m).data = none := by
  cases m <;> rfl

/-- C6: the exporter always produces exactly two rows — a header row
holding the twelve field labels (units included) followed by the result
label, and one data row holding the rendered input values followed by the
rounded predicted capacity. -/
theorem to_csv_two_rows (i : Inputs) (p : ℚ) :
    parseRows (to_csv i p)
      = [(fieldLabels.map String.data) ++ [resultLabel.data],
         fieldCells i ++ [ratChars (pyRound3 p)]] ∧
    fieldLabels.length = 12 ∧ (fieldCells i).length = 12 :=
  ⟨parseRows_to_csv i p, rfl, rfl⟩

/-- C5: parsing the exported delimited text recovers the two rows exactly;
re-extracting each numeric column of the data row yields the exact
submitted value, the modification column reproduces the selectbox string
verbatim, and the final column yields exactly the rounded predicted
capacity. -/
theorem to_csv_roundtrip (i : Inputs) (p : ℚ)
    (h1 : IsDec i.T_H) (h2 : IsDec i.time) (h3 : IsDec i.ratio) (h4 : IsDec i.C)
    (h5 : IsDec i.HC) (h6 : IsDec i.OC) (h7 : IsDec i.ONC) (h8 : IsDec i.BET)
    (h9 : IsDec i.pH) (h10 : IsDec i.T) (h11 : IsDec i.C0) :
    parseRows (to_csv i p) = [headerCells, fieldCells i ++ [ratChars (pyRound3 p)]] ∧
    ((parseRows (to_csv i p)).getD 1 []).map parseRat =
      [some i.T_H, some i.time, none, some i.ratio, some i.C, some i.HC,
       some i.OC, some i.ONC, some i.BET, some i.pH, some i.T, some i.C0,
       some (pyRound3 p)] ∧
    ((parseRows (to_csv i p)).getD 1 []).getD 2 [] = (modStr i.modified).data := by
  have hrows := parseRows_to_csv i p
  have hrow2 : (parseRows (to_csv i p)).getD 1 [] =
      fieldCells i ++ [ratChars (pyRound3 p)] := by
    rw [hrows]
    rfl
  refine ⟨hrows, ?_, ?_⟩
  · rw [hrow2]
    simp only [fieldCells, List.cons_append, List.nil_append, List.map_cons,
      List.map_nil]
    rw [parseRat_ratChars _ h1, parseRat_ratChars _ h2, parseRat_ratChars _ h3,
      parseRat_ratChars _ h4, parseRat_ratChars _ h5, parseRat_ratChars _ h6,
      parseRat_ratChars _ h7, parseRat_ratChars _ h8, parseRat_ratChars _ h9,
      parseRat_ratChars _ h10, parseRat_ratChars _ h11,
      parseRat_ratChars _ (isDec_pyRound3 p), parseRat_modStr i.modified]
  · rw [hrow2]
    rfl

/-- Integer-valued inputs used as a concrete witness submission. -/
def witInputs : Inputs := ⟨180, 6, Modified.no, 1, 60, 1, 1, 1, 400, 7, 25, 100⟩

/-- C5 witness at an integer-valued submission with prediction 2. -/
theorem to_csv_roundtrip_witness :
    (IsDec witInputs.T_H ∧ IsDec witInputs.time ∧ IsDec witInputs.ratio ∧
     IsDec witInputs.C ∧ IsDec witInputs.HC ∧ IsDec witInputs.OC ∧
     IsDec witInputs.ONC ∧ IsDec witInputs.BET ∧ IsDec witInputs.pH ∧
     IsDec witInputs.T ∧ IsDec witInputs.C0) ∧
    ((parseRows (to_csv witInputs 2)).getD 1 []).map parseRat =
      [some 180, some 6, none, some 1, some 60, some 1, some 1, some 1,
       some 400, some 7, some 25, some 100, some (pyRound3 2)] :=
  ⟨⟨by decide, by decide, by decide, by decide, by decide, by decide, by decide,
    by decide, by decide, by decide, by decide⟩,
   (to_csv_roundtrip witInputs 2 (by decide) (by decide) (by decide) (by decide)
     (by decide) (by decide) (by decide) (by decide) (by decide) (by decide)
     (by decide)).2.1⟩

/-! ### C9: scenario determinism and frame effect of the ratio field -/

/-- The spec's scenario submission: T_H 180, time 6, not modified,
ratio 0.1, C 60, H/C 0.3, O/C 0.2, (O+N)/C 0.5, BET 400, pH 7, T 25,
C0 100. -/
def scenarioA : Inputs :=
  ⟨180, 6, Modified.no, 1/10, 60, 3/10, 1/5, 1/2, 400, 7, 25, 100⟩

/-- The scenario submission with only the solid-to-liquid ratio changed
from 0.1 to 0.05. -/
def scenarioB : Inputs :=
  ⟨180, 6, Modified.no, 1/20, 60, 3/10, 1/5, 1/2, 400, 7, 25, 100⟩

lemma scenarioA_valid : ∀ f, validB f (toRaw scenarioA f) = true := by
  intro f
  cases f <;> norm_num [toRaw, scenarioA, validB, fieldMin, fieldMax, modified_val]

/-- C9: against any fixed artifact the scenario submission passes
validation and its predicted capacity is the fixed value the model assigns
to its feature vector (the embedding is a pure function, so every run
yields that same rounded scalar); and changing only the ratio field from
0.1 to 0.05 changes nothing in the exported data row except the ratio
column (index 3) and the derived capacity column (index 12). -/
theorem scenario_determinism_frame (m : Model) :
    predict m (toRaw scenarioA) = Except.ok (m (input_array (toRaw scenarioA))) ∧
    fieldCells scenarioB ++ [ratChars (pyRound3 (m (input_array (toRaw scenarioB))))]
      = ((fieldCells scenarioA ++
            [ratChars (pyRound3 (m (input_array (toRaw scenarioA))))]).set 3
          (ratChars (1/20))).set 12
          (ratChars (pyRound3 (m (input_array (toRaw scenarioB))))) := by
  constructor
  · unfold predict
    rw [firstInvalid_of_allValid _ scenarioA_valid]
  · rfl

/-! ### C10: encoding of the surface-modification flag -/

/-- C10: the third feature the model consumes is exactly the {0,1}
encoding of the selectbox choice (1 iff "Yes", APP.py:118 and 143), while
the exported "Modified" column holds the selectbox string "No"/"Yes"
(APP.py:148) — never the numeric value the model consumed. -/
theorem modified_encoding (i : Inputs) :
    (input_array (toRaw i)).getD 2 0 = modified_val i.modified ∧
    (modified_val i.modified = 0 ∨ modified_val i.modified = 1) ∧
    (modified_val i.modified = 1 ↔ i.modified = Modified.yes) ∧
    (fieldCells i).getD 2 [] = (modStr i.modified).data ∧
    ((modStr i.modified).data = "No".data ∨ (modStr i.modified).data = "Yes".data) ∧
    (modStr i.modified).data ≠ ratChars (modified_val i.modified) := by
  refine ⟨rfl, ?_, ?_, rfl, ?_, ?_⟩
  · cases i.modified
    · exact Or.inl rfl
    · exact Or.inr rfl
  · cases i.modified <;> simp [modified_val]
  · cases i.modified
    · exact Or.inl rfl
    · exact Or.inr rfl
  · cases i.modified <;> decide

/-- C10 witness at a concrete form state. -/
theorem modified_encoding_witness :
    (input_array (toRaw witInputs)).getD 2 0 = modified_val witInputs.modified ∧
    (modified_val witInputs.modified = 0 ∨ modified_val witInputs.modified = 1) ∧
    (modified_val witInputs.modified = 1 ↔ witInputs.modified = Modified.yes) ∧
    (fieldCells witInputs).getD 2 [] = (modStr witInputs.modified).data ∧
    ((modStr witInputs.modified).data = "No".data ∨
      (modStr witInputs.modified).data = "Yes".data) ∧
    (modStr witInputs.modified).data ≠ ratChars (modified_val witInputs.modified) :=
  modified_encoding witInputs

end BlueHydro
